import Mathlib

/-!
Verification of the osgrep incremental syncer, worker manager, scheduler
gate and worker-count configuration, as a shallow embedding of
`src/lib/index/syncer.ts`, `src/lib/worker-manager.ts` and `src/config.ts`.

The syncer's collaborators (the LanceDB vector store, the LMDB metadata
cache and the embedding worker pool) are modelled by the calls the syncer
issues to them: each storage or pool call becomes an `Event` in a trace,
and the metadata cache is carried as an association list in the state.
The per-file task bodies of `initialSync` are data-independent of each
other (each touches only its own path's cache entry and the shared batch
buffers, and flushes are serialized by the flush mutex), so the
concurrent loop is embedded as a sequential fold over the scanned files;
the concurrency gate itself is modelled separately by `schedPeaks`.
-/

namespace Osgrep

/-- Metadata cache entry, mirroring `MetaEntry` of `meta-cache`:
`{hash, mtimeMs, size}`. The SHA-256 hash is abstracted to a `Nat`. -/
structure MetaEntry where
  hash : Nat
  mtimeMs : Int
  size : Nat
deriving DecidableEq, Repr

/-- A chunk record as far as the syncer observes it: the pool returns a
list of these and the syncer forwards them to `insertBatch`. -/
structure VectorRecord where
  path : String
deriving DecidableEq, Repr

/-- One call issued by the syncer to a collaborator. `dropTable` and
`metaClear` are in the vocabulary (the store exposes `drop()` and the
cache can be cleared) but, as the theorems show, `initialSync` never
emits them. -/
inductive Event where
  | deletePaths (ps : List String)
  | insertBatch (rs : List VectorRecord)
  | metaPut (p : String) (e : MetaEntry)
  | metaDelete (p : String)
  | processFile (p : String) (h : Nat)
  | dropTable
  | metaClear
deriving DecidableEq, Repr

/-- Everything `initialSync` observes about one scanned file: the
ignore-filter verdict, `isIndexableFile` on path and on size, the stat
result, the read buffer's emptiness/NUL-byte flag and hash, the chunk
records the pool would return for it, and whether the stat/read/pool
step throws for it. -/
structure FileInfo where
  relPath : String
  ignored : Bool
  indexable : Bool
  sizeOk : Bool
  mtimeMs : Int
  size : Nat
  emptyOrNul : Bool
  hash : Nat
  vectors : List VectorRecord
  fails : Bool
deriving DecidableEq, Repr

/-- The run options and environment of one `initialSync` pass:
`dryRun`, `CONFIG.EMBED_BATCH_SIZE`, whether `db.insertBatch` throws,
and the index at which the abort signal (if any) is observed. -/
structure SyncConfig where
  dryRun : Bool
  embedBatchSize : Nat
  insertFails : Bool
  cancelAt : Option Nat
deriving DecidableEq, Repr

/-- Mutable state of one `initialSync` pass: the metadata cache plus the
local accumulators `batch`, `pendingMeta`, `pendingDeletes`, `seenPaths`,
the counters, and the `shouldSkipCleanup` / `flushError` flags. -/
structure SyncState where
  meta : List (String × MetaEntry)
  batch : List VectorRecord
  pendingMeta : List (String × MetaEntry)
  pendingDeletes : List String
  seen : List String
  processed : Nat
  indexed : Nat
  shouldSkipCleanup : Bool
  flushError : Bool
deriving DecidableEq, Repr

/-- Lookup in an association-list map (`metaCache.get`, `Map.get`). -/
def metaGet (m : List (String × MetaEntry)) (p : String) : Option MetaEntry :=
  (m.find? (fun q => q.1 == p)).map (fun q => q.2)

/-- Insert-or-replace in an association-list map (`metaCache.put`,
`Map.set`), keeping first-insertion order like a JS `Map`. -/
def metaSet : List (String × MetaEntry) → String → MetaEntry → List (String × MetaEntry)
  | [], p, e => [(p, e)]
  | q :: rest, p, e => if q.1 == p then (p, e) :: rest else q :: metaSet rest p e

/-- Delete from an association-list map (`metaCache.delete`). -/
def metaRemove (m : List (String × MetaEntry)) (p : String) :
    List (String × MetaEntry) :=
  m.filter (fun q => q.1 != p)

/-- Add to a JS `Set` kept as a list (`pendingDeletes.add`, `seenPaths.add`). -/
def pdAdd (l : List String) (p : String) : List String :=
  if l.contains p then l else l ++ [p]

/-- Result of one `flushBatch` call: the storage/cache calls it made, the
metadata entries it committed, and whether it returned without throwing. -/
structure FlushOut where
  events : List Event
  committed : List (String × MetaEntry)
  ok : Bool
deriving DecidableEq, Repr

/-- Embedding of `flushBatch` (syncer.ts lines 41-59): return at once in
dry-run; else apply the pending deletes, then insert the batched vectors
(which throws when `insertFails`), and only then commit the pending
metadata entries to the cache. -/
def flushBatch (vectors : List VectorRecord) (pendingMeta : List (String × MetaEntry))
    (pendingDeletes : List String) (dryRun insertFails : Bool) : FlushOut :=
  if dryRun then ⟨[], [], true⟩
  else
    let delEv : List Event :=
      if pendingDeletes.isEmpty then [] else [Event.deletePaths pendingDeletes]
    if vectors.isEmpty then
      ⟨delEv ++ pendingMeta.map (fun q => Event.metaPut q.1 q.2), pendingMeta, true⟩
    else if insertFails then
      ⟨delEv ++ [Event.insertBatch vectors], [], false⟩
    else
      ⟨delEv ++ [Event.insertBatch vectors] ++ pendingMeta.map (fun q => Event.metaPut q.1 q.2),
       pendingMeta, true⟩

/-- Result of one `flush` call in the driver: new state, emitted calls,
and whether the flush threw. -/
structure FlushStep where
  st : SyncState
  evs : List Event
  threw : Bool
deriving DecidableEq, Repr

/-- Embedding of the `flush` closure (syncer.ts lines 110-145): check the
trigger (`force`, or any accumulator at `batchLimit = max 1
EMBED_BATCH_SIZE`), splice the accumulators, run `flushBatch`, and record
`flushError` when it throws. The committed entries are applied to the
cache; the spliced accumulators stay cleared even on failure. -/
def doFlush (cfg : SyncConfig) (st : SyncState) (force : Bool) : FlushStep :=
  let batchLimit := max 1 cfg.embedBatchSize
  let shouldFlush := force || batchLimit ≤ st.batch.length ||
    batchLimit ≤ st.pendingDeletes.length || batchLimit ≤ st.pendingMeta.length
  if shouldFlush then
    let out := flushBatch st.batch st.pendingMeta st.pendingDeletes cfg.dryRun cfg.insertFails
    ⟨{ st with batch := [],
               pendingMeta := [],
               pendingDeletes := [],
               meta := out.committed.foldl (fun m q => metaSet m q.1 q.2) st.meta,
               flushError := st.flushError || !out.ok },
     out.events, !out.ok⟩
  else ⟨st, [], false⟩

/-- Cache hit on `(mtimeMs, size)` (syncer.ts lines 184-188). -/
def statHitB (m : List (String × MetaEntry)) (f : FileInfo) : Bool :=
  match metaGet m f.relPath with
  | some c => c.mtimeMs == f.mtimeMs && c.size == f.size
  | none => false

/-- Cache hit on the content hash (syncer.ts line 215). -/
def hashHitB (m : List (String × MetaEntry)) (f : FileInfo) : Bool :=
  match metaGet m f.relPath with
  | some c => c.hash == f.hash
  | none => false

/-- Embedding of the body of one scheduled per-file task (syncer.ts lines
170-258): stat and size filter, `(mtime, size)` cache hit, read, the
empty/NUL-byte delete branch, the hash-match refresh branch, the dry-run
early return, and the pool + batching path; the surrounding `catch`
increments `processed` and sets `shouldSkipCleanup`. -/
def processOne (cfg : SyncConfig) (st : SyncState) (f : FileInfo) :
    SyncState × List Event :=
  if f.fails then
    ({ st with processed := st.processed + 1, shouldSkipCleanup := true }, [])
  else if !f.sizeOk then (st, [])
  else if statHitB st.meta f then
    ({ st with processed := st.processed + 1, seen := pdAdd st.seen f.relPath }, [])
  else
    let entry : MetaEntry := ⟨f.hash, f.mtimeMs, f.size⟩
    if f.emptyOrNul then
      if cfg.dryRun then
        ({ st with processed := st.processed + 1, seen := pdAdd st.seen f.relPath }, [])
      else
        let st1 := { st with pendingDeletes := pdAdd st.pendingDeletes f.relPath,
                             pendingMeta := metaSet st.pendingMeta f.relPath entry }
        let out := doFlush cfg st1 false
        if out.threw then
          ({ out.st with processed := out.st.processed + 1, shouldSkipCleanup := true },
           out.evs)
        else
          ({ out.st with processed := out.st.processed + 1,
                         seen := pdAdd out.st.seen f.relPath }, out.evs)
    else if hashHitB st.meta f then
      ({ st with meta := metaSet st.meta f.relPath entry,
                 processed := st.processed + 1,
                 seen := pdAdd st.seen f.relPath },
       [Event.metaPut f.relPath entry])
    else if cfg.dryRun then
      ({ st with processed := st.processed + 1,
                 indexed := st.indexed + 1,
                 seen := pdAdd st.seen f.relPath }, [])
    else
      let st1 := { st with pendingDeletes := pdAdd st.pendingDeletes f.relPath }
      let st2 :=
        if f.vectors.isEmpty then
          { st1 with pendingMeta := metaSet st1.pendingMeta f.relPath entry }
        else
          { st1 with batch := st1.batch ++ f.vectors,
                     pendingMeta := metaSet st1.pendingMeta f.relPath entry,
                     indexed := st1.indexed + 1 }
      let st3 := { st2 with seen := pdAdd st2.seen f.relPath,
                            processed := st2.processed + 1 }
      let out := doFlush cfg st3 false
      if out.threw then
        ({ out.st with processed := out.st.processed + 1, shouldSkipCleanup := true },
         Event.processFile f.relPath f.hash :: out.evs)
      else (out.st, Event.processFile f.relPath f.hash :: out.evs)

/-- Whether the abort signal has been observed by the time the file at
index `idx` is about to be scheduled. -/
def cancelObserved (cfg : SyncConfig) (idx : Nat) : Bool :=
  match cfg.cancelAt with
  | some k => decide (k ≤ idx)
  | none => false

/-- One iteration of the scan loop for one streamed entry (syncer.ts
lines 164-168 + the scheduled task): skip ignored and non-indexable
paths, otherwise run the task body. -/
def stepFile (cfg : SyncConfig) (st : SyncState) (f : FileInfo) : SyncState × List Event :=
  if f.ignored then (st, [])
  else if !f.indexable then (st, [])
  else processOne cfg st f

/-- Embedding of the scan loop (syncer.ts lines 159-259): break with
`shouldSkipCleanup` on abort, apply the ignore filter and
`isIndexableFile`, and run the scheduled task body for each candidate. -/
def runLoop (cfg : SyncConfig) : List FileInfo → Nat → SyncState → SyncState × List Event
  | [], _, st => (st, [])
  | f :: rest, idx, st =>
    if cancelObserved cfg idx then ({ st with shouldSkipCleanup := true }, [])
    else
      let step := stepFile cfg st f
      let next := runLoop cfg rest (idx + 1) step.1
      (next.1, step.2 ++ next.2)

/-- The `{processed, indexed, total}` record `initialSync` returns. -/
structure SyncResult where
  processed : Nat
  indexed : Nat
  total : Nat
deriving DecidableEq, Repr

/-- Outcome of a whole `initialSync` pass: final state, the full call
trace, the returned result (`none` when the pass threw), and the list of
stale paths swept (`none` when the sweep did not run). -/
structure RunOut where
  final : SyncState
  events : List Event
  result : Option SyncResult
  sweep : Option (List String)
deriving DecidableEq, Repr

/-- Initial state of a pass over a metadata cache `m0`. -/
def initState (m0 : List (String × MetaEntry)) : SyncState :=
  ⟨m0, [], [], [], [], 0, 0, false, false⟩

/-- The pass up to (and including) the forced final flush (syncer.ts
lines 159-266): scan loop, the post-drain abort check, `flush(true)`. -/
def preSweep (cfg : SyncConfig) (m0 : List (String × MetaEntry))
    (files : List FileInfo) : SyncState × List Event :=
  let lp := runLoop cfg files 0 (initState m0)
  let st2 := if cfg.cancelAt.isSome then { lp.1 with shouldSkipCleanup := true } else lp.1
  let fo := doFlush cfg st2 true
  (fo.st, lp.2 ++ fo.evs)

/-- The tail of `initialSync` (syncer.ts lines 268-280): rethrow a
recorded flush error, else run the stale sweep `storedPaths − seenPaths`
guarded by `!dryRun` and `!shouldSkipCleanup`, and return the result. -/
def staleOf (storedPaths : List String) (st : SyncState) : List String :=
  storedPaths.filter (fun p => !(st.seen.contains p))

def finishSync (cfg : SyncConfig) (storedPaths : List String)
    (pre : SyncState × List Event) : RunOut :=
  if pre.1.flushError then ⟨pre.1, pre.2, none, none⟩
  else if !cfg.dryRun && !(staleOf storedPaths pre.1).isEmpty &&
      !pre.1.shouldSkipCleanup then
    ⟨{ pre.1 with meta := (staleOf storedPaths pre.1).foldl metaRemove pre.1.meta },
     pre.2 ++ [Event.deletePaths (staleOf storedPaths pre.1)] ++
       (staleOf storedPaths pre.1).map Event.metaDelete,
     some ⟨pre.1.processed, pre.1.indexed, 0⟩, some (staleOf storedPaths pre.1)⟩
  else ⟨pre.1, pre.2, some ⟨pre.1.processed, pre.1.indexed, 0⟩, none⟩

/-- Embedding of `initialSync` (syncer.ts lines 61-288). -/
def initialSync (cfg : SyncConfig) (storedPaths : List String)
    (m0 : List (String × MetaEntry)) (files : List FileInfo) : RunOut :=
  finishSync cfg storedPaths (preSweep cfg m0 files)

/-- Event classifiers used by the theorems. -/
def isDeleteEv : Event → Bool
  | Event.deletePaths _ => true
  | _ => false

def isInsertEv : Event → Bool
  | Event.insertBatch _ => true
  | _ => false

def isMetaPutEv : Event → Bool
  | Event.metaPut _ _ => true
  | _ => false

/-- A mutation of the vector store: `deletePaths`, `insertBatch` or `drop`. -/
def isStoreWriteEv : Event → Bool
  | Event.deletePaths _ => true
  | Event.insertBatch _ => true
  | Event.dropTable => true
  | _ => false

/-- A dispatch to the worker pool. -/
def isPoolCallEv : Event → Bool
  | Event.processFile _ _ => true
  | _ => false

/-- The corruption-recovery calls of spec §4.5 step 10. -/
def isResetEv : Event → Bool
  | Event.dropTable => true
  | Event.metaClear => true
  | _ => false

/-- `!f.ignored && f.indexable`: the file reaches `schedule`. -/
def candidateB (f : FileInfo) : Bool := !f.ignored && f.indexable

/-! Helper lemmas about the association-list metadata cache. -/

theorem metaGet_nil (p : String) : metaGet [] p = none := rfl

theorem metaGet_cons (a : String × MetaEntry) (m : List (String × MetaEntry)) (p : String) :
    metaGet (a :: m) p = if a.1 == p then some a.2 else metaGet m p := by
  by_cases h : a.1 == p <;> simp [metaGet, List.find?_cons, h]

theorem metaGet_metaSet_self (m : List (String × MetaEntry)) (p : String) (e : MetaEntry) :
    metaGet (metaSet m p e) p = some e := by
  induction m with
  | nil => simp [metaSet, metaGet_cons]
  | cons a rest ih =>
    by_cases h : a.1 == p
    · simp [metaSet, h, metaGet_cons]
    · simp [metaSet, h, metaGet_cons, ih]

theorem metaGet_metaSet_ne (m : List (String × MetaEntry)) (p q : String) (e : MetaEntry)
    (h : p ≠ q) : metaGet (metaSet m p e) q = metaGet m q := by
  induction m with
  | nil => simp [metaSet, metaGet_cons, metaGet_nil, h]
  | cons a rest ih =>
    by_cases ha : a.1 == p
    · have hap : a.1 = p := by simpa using ha
      have haq : (p == q) = false := beq_eq_false_iff_ne.mpr h
      simp [metaSet, ha, metaGet_cons, hap, haq]
    · simp [metaSet, ha, metaGet_cons, ih]

theorem mem_metaSet_self (m : List (String × MetaEntry)) (p : String) (e : MetaEntry) :
    (p, e) ∈ metaSet m p e := by
  induction m with
  | nil => simp [metaSet]
  | cons a rest ih =>
    by_cases h : a.1 == p <;> simp [metaSet, h, ih]

/-! Helper lemmas about list-backed JS sets. -/

theorem mem_pdAdd_self (l : List String) (p : String) : p ∈ pdAdd l p := by
  unfold pdAdd
  split
  · exact List.elem_iff.mp (by assumption)
  · exact List.mem_append.mpr (Or.inr (List.mem_singleton.mpr rfl))

theorem mem_pdAdd_of (l : List String) (p q : String) (h : q ∈ l) : q ∈ pdAdd l p := by
  unfold pdAdd
  split
  · exact h
  · exact List.mem_append.mpr (Or.inl h)

theorem pdAdd_contains_self (l : List String) (p : String) :
    (pdAdd l p).contains p = true :=
  List.elem_iff.mpr (mem_pdAdd_self l p)

theorem pdAdd_contains_of (l : List String) (p q : String)
    (h : l.contains q = true) : (pdAdd l p).contains q = true :=
  List.elem_iff.mpr (mem_pdAdd_of l p q (List.elem_iff.mp h))

/-! Helper lemmas about the event classifiers. -/

theorem metaPut_harmless (e : Event) (h : isMetaPutEv e = true) :
    (!(isPoolCallEv e || isStoreWriteEv e)) = true := by
  cases e <;> simp_all [isMetaPutEv, isPoolCallEv, isStoreWriteEv]

theorem all_map_metaPut (pm : List (String × MetaEntry)) :
    (pm.map (fun q => Event.metaPut q.1 q.2)).all isMetaPutEv = true := by
  rw [List.all_eq_true]
  intro e he
  obtain ⟨q, _, rfl⟩ := List.mem_map.mp he
  rfl

/-! Helper lemmas about `flushBatch`. -/

theorem flushBatch_ok_of_insert_ok (vs : List VectorRecord)
    (pm : List (String × MetaEntry)) (pd : List String) (dr : Bool) :
    (flushBatch vs pm pd dr false).ok = true := by
  unfold flushBatch
  by_cases h1 : dr = true
  · simp [h1]
  · by_cases h2 : vs.isEmpty = true <;>
      simp [h1, h2]

theorem flushBatch_dry (vs : List VectorRecord) (pm : List (String × MetaEntry))
    (pd : List String) (fl : Bool) : flushBatch vs pm pd true fl = ⟨[], [], true⟩ := by
  simp [flushBatch]

theorem flushBatch_all_empty (dr fl : Bool) :
    flushBatch [] [] [] dr fl = ⟨[], [], true⟩ := by
  by_cases h : dr = true <;> simp [flushBatch, h]

/-! Helper lemmas about `doFlush`. -/

theorem doFlush_preserves (cfg : SyncConfig) (st : SyncState) (force : Bool) :
    (doFlush cfg st force).st.processed = st.processed ∧
    (doFlush cfg st force).st.indexed = st.indexed ∧
    (doFlush cfg st force).st.seen = st.seen ∧
    (doFlush cfg st force).st.shouldSkipCleanup = st.shouldSkipCleanup := by
  simp only [doFlush]
  split <;> simp

theorem doFlush_no_throw (cfg : SyncConfig) (st : SyncState) (force : Bool)
    (h : cfg.insertFails = false) :
    (doFlush cfg st force).threw = false ∧
    (doFlush cfg st force).st.flushError = st.flushError := by
  simp only [doFlush]
  split <;> simp [h, flushBatch_ok_of_insert_ok]

theorem doFlush_of_empty (cfg : SyncConfig) (st : SyncState) (force : Bool)
    (hb : st.batch = []) (hm : st.pendingMeta = []) (hd : st.pendingDeletes = []) :
    doFlush cfg st force = ⟨st, [], false⟩ := by
  obtain ⟨meta, batch, pendingMeta, pendingDeletes, seen, processed, indexed, ssc, fe⟩ := st
  simp only at hb hm hd
  subst hb hm hd
  simp only [doFlush]
  split <;> simp [flushBatch_all_empty]

/-! Equation lemmas for `runLoop`. -/

theorem runLoop_nil (cfg : SyncConfig) (idx : Nat) (st : SyncState) :
    runLoop cfg [] idx st = (st, []) := rfl

theorem runLoop_cons (cfg : SyncConfig) (f : FileInfo) (rest : List FileInfo)
    (idx : Nat) (st : SyncState) :
    runLoop cfg (f :: rest) idx st =
      if cancelObserved cfg idx then ({ st with shouldSkipCleanup := true }, [])
      else
        let step := stepFile cfg st f
        let next := runLoop cfg rest (idx + 1) step.1
        (next.1, step.2 ++ next.2) := rfl

/-! Helper lemmas about `finishSync`. -/

theorem finishSync_result_none (cfg : SyncConfig) (sp : List String)
    (pre : SyncState × List Event) (h : pre.1.flushError = true) :
    (finishSync cfg sp pre).result = none := by
  simp [finishSync, h]

theorem finishSync_final_flushError (cfg : SyncConfig) (sp : List String)
    (pre : SyncState × List Event) :
    (finishSync cfg sp pre).final.flushError = pre.1.flushError := by
  unfold finishSync
  split
  · rfl
  · split <;> rfl

/-! Branch equations for `processOne`. -/

theorem processOne_fails (cfg : SyncConfig) (st : SyncState) (f : FileInfo)
    (h : f.fails = true) :
    processOne cfg st f =
      ({ st with processed := st.processed + 1, shouldSkipCleanup := true }, []) := by
  simp [processOne, h]

theorem processOne_sizeSkip (cfg : SyncConfig) (st : SyncState) (f : FileInfo)
    (h1 : f.fails = false) (h2 : f.sizeOk = false) :
    processOne cfg st f = (st, []) := by
  simp [processOne, h1, h2]

theorem processOne_statHit (cfg : SyncConfig) (st : SyncState) (f : FileInfo)
    (h1 : f.fails = false) (h2 : f.sizeOk = true) (h3 : statHitB st.meta f = true) :
    processOne cfg st f =
      ({ st with processed := st.processed + 1, seen := pdAdd st.seen f.relPath }, []) := by
  simp [processOne, h1, h2, h3]

theorem processOne_empty_dry (cfg : SyncConfig) (st : SyncState) (f : FileInfo)
    (h1 : f.fails = false) (h2 : f.sizeOk = true) (h3 : statHitB st.meta f = false)
    (h4 : f.emptyOrNul = true) (h5 : cfg.dryRun = true) :
    processOne cfg st f =
      ({ st with processed := st.processed + 1, seen := pdAdd st.seen f.relPath }, []) := by
  simp [processOne, h1, h2, h3, h4, h5]

theorem processOne_empty (cfg : SyncConfig) (st : SyncState) (f : FileInfo)
    (h1 : f.fails = false) (h2 : f.sizeOk = true) (h3 : statHitB st.meta f = false)
    (h4 : f.emptyOrNul = true) (h5 : cfg.dryRun = false) :
    processOne cfg st f =
      (let st1 := { st with
          pendingDeletes := pdAdd st.pendingDeletes f.relPath,
          pendingMeta := metaSet st.pendingMeta f.relPath ⟨f.hash, f.mtimeMs, f.size⟩ }
       let out := doFlush cfg st1 false
       if out.threw then
         ({ out.st with processed := out.st.processed + 1, shouldSkipCleanup := true },
          out.evs)
       else
         ({ out.st with processed := out.st.processed + 1,
                        seen := pdAdd out.st.seen f.relPath }, out.evs)) := by
  simp [processOne, h1, h2, h3, h4, h5]

theorem processOne_hashHit (cfg : SyncConfig) (st : SyncState) (f : FileInfo)
    (h1 : f.fails = false) (h2 : f.sizeOk = true) (h3 : statHitB st.meta f = false)
    (h4 : f.emptyOrNul = false) (h5 : hashHitB st.meta f = true) :
    processOne cfg st f =
      ({ st with meta := metaSet st.meta f.relPath ⟨f.hash, f.mtimeMs, f.size⟩,
                 processed := st.processed + 1,
                 seen := pdAdd st.seen f.relPath },
       [Event.metaPut f.relPath ⟨f.hash, f.mtimeMs, f.size⟩]) := by
  simp [processOne, h1, h2, h3, h4, h5]

theorem processOne_dryNew (cfg : SyncConfig) (st : SyncState) (f : FileInfo)
    (h1 : f.fails = false) (h2 : f.sizeOk = true) (h3 : statHitB st.meta f = false)
    (h4 : f.emptyOrNul = false) (h5 : hashHitB st.meta f = false)
    (h6 : cfg.dryRun = true) :
    processOne cfg st f =
      ({ st with processed := st.processed + 1, indexed := st.indexed + 1,
                 seen := pdAdd st.seen f.relPath }, []) := by
  simp [processOne, h1, h2, h3, h4, h5, h6]

theorem processOne_pool (cfg : SyncConfig) (st : SyncState) (f : FileInfo)
    (h1 : f.fails = false) (h2 : f.sizeOk = true) (h3 : statHitB st.meta f = false)
    (h4 : f.emptyOrNul = false) (h5 : hashHitB st.meta f = false)
    (h6 : cfg.dryRun = false) :
    processOne cfg st f =
      (let st1 := { st with pendingDeletes := pdAdd st.pendingDeletes f.relPath }
       let st2 :=
         if f.vectors.isEmpty then
           { st1 with pendingMeta := metaSet st1.pendingMeta f.relPath ⟨f.hash, f.mtimeMs, f.size⟩ }
         else
           { st1 with batch := st1.batch ++ f.vectors,
                      pendingMeta := metaSet st1.pendingMeta f.relPath ⟨f.hash, f.mtimeMs, f.size⟩,
                      indexed := st1.indexed + 1 }
       let st3 := { st2 with seen := pdAdd st2.seen f.relPath,
                             processed := st2.processed + 1 }
       let out := doFlush cfg st3 false
       if out.threw then
         ({ out.st with processed := out.st.processed + 1, shouldSkipCleanup := true },
          Event.processFile f.relPath f.hash :: out.evs)
       else (out.st, Event.processFile f.relPath f.hash :: out.evs)) := by
  simp [processOne, h1, h2, h3, h4, h5, h6]

/-- Claim C1, part of the statement as a reusable predicate: the calls of
one flush are all the deletes, then all the inserts, then all the
metadata commits. -/
def orderedFlushEvents (l : List Event) : Prop :=
  ∃ dels ins mps, l = dels ++ ins ++ mps ∧
    dels.all isDeleteEv = true ∧ ins.all isInsertEv = true ∧ mps.all isMetaPutEv = true

/-- Claim C1: every `flushBatch` applies the pending deletes first, then
inserts the batched vectors, then and only then commits metadata entries;
when the insert throws, no metadata entry of that flush is committed, and
`initialSync` rethrows a recorded flush error (its result is `none`)
after the scan loop and final flush have run. -/
theorem flush_order_and_insert_failure :
    (∀ (vs : List VectorRecord) (pm : List (String × MetaEntry)) (pd : List String)
        (dr fl : Bool),
      orderedFlushEvents (flushBatch vs pm pd dr fl).events ∧
      ((flushBatch vs pm pd dr fl).ok = false →
        (flushBatch vs pm pd dr fl).events.all (fun e => !isMetaPutEv e) = true ∧
        (flushBatch vs pm pd dr fl).committed = [])) ∧
    (∀ (cfg : SyncConfig) (sp : List String) (m0 : List (String × MetaEntry))
        (fs : List FileInfo),
      (initialSync cfg sp m0 fs).final.flushError = true →
      (initialSync cfg sp m0 fs).result = none) := by
  constructor
  · intro vs pm pd dr fl
    unfold flushBatch
    by_cases h1 : dr = true
    · refine ⟨⟨[], [], [], by simp [h1], by simp, by simp, by simp⟩, ?_⟩
      simp [h1]
    · by_cases h2 : pd.isEmpty = true
      · by_cases h3 : vs.isEmpty = true
        · refine ⟨⟨[], [], pm.map (fun q => Event.metaPut q.1 q.2), by simp [h1, h2, h3],
            by simp, by simp, all_map_metaPut pm⟩, ?_⟩
          simp [h1, h2, h3]
        · by_cases h4 : fl = true
          · refine ⟨⟨[], [Event.insertBatch vs], [], by simp [h1, h2, h3, h4],
              by simp, by simp [isInsertEv], by simp⟩, ?_⟩
            intro _
            simp [h1, h2, h3, h4, isMetaPutEv]
          · refine ⟨⟨[], [Event.insertBatch vs], pm.map (fun q => Event.metaPut q.1 q.2),
              by simp [h1, h2, h3, h4], by simp, by simp [isInsertEv],
              all_map_metaPut pm⟩, ?_⟩
            simp [h1, h2, h3, h4]
      · by_cases h3 : vs.isEmpty = true
        · refine ⟨⟨[Event.deletePaths pd], [], pm.map (fun q => Event.metaPut q.1 q.2),
            by simp [h1, h2, h3], by simp [isDeleteEv], by simp,
            all_map_metaPut pm⟩, ?_⟩
          simp [h1, h2, h3]
        · by_cases h4 : fl = true
          · refine ⟨⟨[Event.deletePaths pd], [Event.insertBatch vs], [],
              by simp [h1, h2, h3, h4], by simp [isDeleteEv], by simp [isInsertEv],
              by simp⟩, ?_⟩
            intro _
            simp [h1, h2, h3, h4, isMetaPutEv, isDeleteEv]
          · refine ⟨⟨[Event.deletePaths pd], [Event.insertBatch vs],
              pm.map (fun q => Event.metaPut q.1 q.2), by simp [h1, h2, h3, h4],
              by simp [isDeleteEv], by simp [isInsertEv],
              all_map_metaPut pm⟩, ?_⟩
            simp [h1, h2, h3, h4]
  · intro cfg sp m0 fs h
    rw [initialSync, finishSync_final_flushError] at h
    rw [initialSync]
    exact finishSync_result_none cfg sp _ h

/-! Component corollaries of `doFlush_preserves`. -/

theorem doFlush_processed (cfg : SyncConfig) (st : SyncState) (force : Bool) :
    (doFlush cfg st force).st.processed = st.processed :=
  (doFlush_preserves cfg st force).1

theorem doFlush_indexed (cfg : SyncConfig) (st : SyncState) (force : Bool) :
    (doFlush cfg st force).st.indexed = st.indexed :=
  (doFlush_preserves cfg st force).2.1

theorem doFlush_seen (cfg : SyncConfig) (st : SyncState) (force : Bool) :
    (doFlush cfg st force).st.seen = st.seen :=
  (doFlush_preserves cfg st force).2.2.1

theorem doFlush_skip (cfg : SyncConfig) (st : SyncState) (force : Bool) :
    (doFlush cfg st force).st.shouldSkipCleanup = st.shouldSkipCleanup :=
  (doFlush_preserves cfg st force).2.2.2

theorem doFlush_dry_evs (cfg : SyncConfig) (st : SyncState) (force : Bool)
    (h : cfg.dryRun = true) :
    (doFlush cfg st force).evs = [] ∧ (doFlush cfg st force).threw = false := by
  simp only [doFlush]
  split <;> simp [h, flushBatch_dry]

/-! Monotonicity of the `shouldSkipCleanup` flag, and how a per-file
failure sets it. -/

theorem processOne_skip_mono (cfg : SyncConfig) (st : SyncState) (f : FileInfo)
    (h : st.shouldSkipCleanup = true) :
    (processOne cfg st f).1.shouldSkipCleanup = true := by
  cases h1 : f.fails
  · cases h2 : f.sizeOk
    · simp [processOne_sizeSkip cfg st f h1 h2, h]
    · cases h3 : statHitB st.meta f
      · cases h4 : f.emptyOrNul
        · cases h5 : hashHitB st.meta f
          · cases h6 : cfg.dryRun
            · rw [processOne_pool cfg st f h1 h2 h3 h4 h5 h6]
              dsimp only
              cases h7 : f.vectors.isEmpty <;>
                simp only [h7, Bool.false_eq_true, if_false, if_true] <;>
                split <;>
                simp [doFlush_skip, h]
            · simp [processOne_dryNew cfg st f h1 h2 h3 h4 h5 h6, h]
          · simp [processOne_hashHit cfg st f h1 h2 h3 h4 h5, h]
        · cases h5 : cfg.dryRun
          · rw [processOne_empty cfg st f h1 h2 h3 h4 h5]
            dsimp only
            split
            · simp
            · simp [doFlush_skip, h]
          · simp [processOne_empty_dry cfg st f h1 h2 h3 h4 h5, h]
      · simp [processOne_statHit cfg st f h1 h2 h3, h]
  · simp [processOne_fails cfg st f h1]

theorem stepFile_skip_mono (cfg : SyncConfig) (st : SyncState) (f : FileInfo)
    (h : st.shouldSkipCleanup = true) :
    (stepFile cfg st f).1.shouldSkipCleanup = true := by
  unfold stepFile
  split
  · exact h
  · split
    · exact h
    · exact processOne_skip_mono cfg st f h

theorem stepFile_fails_skip (cfg : SyncConfig) (st : SyncState) (f : FileInfo)
    (hc : candidateB f = true) (hf : f.fails = true) :
    (stepFile cfg st f).1.shouldSkipCleanup = true := by
  have hig : f.ignored = false := by
    rcases (Bool.and_eq_true _ _).mp hc with ⟨ha, _⟩
    simpa using ha
  have hidx : f.indexable = true := ((Bool.and_eq_true _ _).mp hc).2
  simp [stepFile, hig, hidx, processOne_fails cfg st f hf]

theorem runLoop_skip_mono (cfg : SyncConfig) :
    ∀ (files : List FileInfo) (idx : Nat) (st : SyncState),
      st.shouldSkipCleanup = true →
      (runLoop cfg files idx st).1.shouldSkipCleanup = true := by
  intro files
  induction files with
  | nil => intro idx st h; simpa [runLoop_nil] using h
  | cons f rest ih =>
    intro idx st h
    rw [runLoop_cons]
    split
    · simp
    · exact ih (idx + 1) _ (stepFile_skip_mono cfg st f h)

theorem runLoop_fails_skip (cfg : SyncConfig) (hcan : cfg.cancelAt = none) :
    ∀ (files : List FileInfo) (idx : Nat) (st : SyncState),
      (∃ f ∈ files, candidateB f = true ∧ f.fails = true) →
      (runLoop cfg files idx st).1.shouldSkipCleanup = true := by
  intro files
  induction files with
  | nil => intro idx st h; simp at h
  | cons f rest ih =>
    intro idx st h
    rw [runLoop_cons]
    have hco : cancelObserved cfg idx = false := by simp [cancelObserved, hcan]
    rw [hco]
    simp only [Bool.false_eq_true, if_false]
    rcases h with ⟨g, hg, hgc, hgf⟩
    rcases List.mem_cons.mp hg with rfl | hmem
    · exact runLoop_skip_mono cfg rest (idx + 1) _
        (stepFile_fails_skip cfg st g hgc hgf)
    · exact ih (idx + 1) _ ⟨g, hmem, hgc, hgf⟩

/-! Counting `processed` and preserving `flushError` when inserts succeed. -/

theorem doFlush_threw_false (cfg : SyncConfig) (st : SyncState) (force : Bool)
    (h : cfg.insertFails = false) : (doFlush cfg st force).threw = false :=
  (doFlush_no_throw cfg st force h).1

theorem doFlush_flushError (cfg : SyncConfig) (st : SyncState) (force : Bool)
    (h : cfg.insertFails = false) :
    (doFlush cfg st force).st.flushError = st.flushError :=
  (doFlush_no_throw cfg st force h).2

theorem processOne_count (cfg : SyncConfig) (st : SyncState) (f : FileInfo)
    (hins : cfg.insertFails = false) :
    (processOne cfg st f).1.processed =
      st.processed + (if (f.fails || f.sizeOk) = true then 1 else 0) ∧
    (processOne cfg st f).1.flushError = st.flushError := by
  cases h1 : f.fails
  · cases h2 : f.sizeOk
    · simp [processOne_sizeSkip cfg st f h1 h2, h1, h2]
    · cases h3 : statHitB st.meta f
      · cases h4 : f.emptyOrNul
        · cases h5 : hashHitB st.meta f
          · cases h6 : cfg.dryRun
            · rw [processOne_pool cfg st f h1 h2 h3 h4 h5 h6]
              dsimp only
              cases h7 : f.vectors.isEmpty <;>
                simp [h7, doFlush_threw_false, doFlush_flushError, doFlush_processed,
                  hins, h1, h2]
            · simp [processOne_dryNew cfg st f h1 h2 h3 h4 h5 h6, h1, h2]
          · simp [processOne_hashHit cfg st f h1 h2 h3 h4 h5, h1, h2]
        · cases h5 : cfg.dryRun
          · rw [processOne_empty cfg st f h1 h2 h3 h4 h5]
            dsimp only
            simp [doFlush_threw_false, doFlush_flushError, doFlush_processed, hins, h1, h2]
          · simp [processOne_empty_dry cfg st f h1 h2 h3 h4 h5, h1, h2]
      · simp [processOne_statHit cfg st f h1 h2 h3, h1, h2]
  · simp [processOne_fails cfg st f h1, h1]

theorem stepFile_count (cfg : SyncConfig) (st : SyncState) (f : FileInfo)
    (hins : cfg.insertFails = false) :
    (stepFile cfg st f).1.processed =
      st.processed + (if (candidateB f && (f.fails || f.sizeOk)) = true then 1 else 0) ∧
    (stepFile cfg st f).1.flushError = st.flushError := by
  unfold stepFile
  cases hig : f.ignored
  · cases hidx : f.indexable
    · simp [hig, hidx, candidateB]
    · have := processOne_count cfg st f hins
      simp [hig, hidx, candidateB, this.1, this.2]
  · simp [hig, candidateB]

/-- Number of scanned files whose task increments `processed`: the
candidates, minus those whose stat succeeds and reports a non-indexable
size. -/
def scheduledCount (files : List FileInfo) : Nat :=
  (files.filter (fun f => candidateB f && (f.fails || f.sizeOk))).length

theorem scheduledCount_cons (f : FileInfo) (rest : List FileInfo) :
    scheduledCount (f :: rest) =
      (if (candidateB f && (f.fails || f.sizeOk)) = true then 1 else 0) +
        scheduledCount rest := by
  cases h : (candidateB f && (f.fails || f.sizeOk)) <;>
    simp [scheduledCount, List.filter_cons, h, Nat.add_comm]

theorem runLoop_count (cfg : SyncConfig) (hins : cfg.insertFails = false)
    (hcan : cfg.cancelAt = none) :
    ∀ (files : List FileInfo) (idx : Nat) (st : SyncState),
      (runLoop cfg files idx st).1.processed = st.processed + scheduledCount files ∧
      (runLoop cfg files idx st).1.flushError = st.flushError := by
  intro files
  induction files with
  | nil => intro idx st; simp [runLoop_nil, scheduledCount]
  | cons f rest ih =>
    intro idx st
    rw [runLoop_cons]
    have hco : cancelObserved cfg idx = false := by simp [cancelObserved, hcan]
    rw [hco]
    simp only [Bool.false_eq_true, if_false]
    have hstep := stepFile_count cfg st f hins
    have hrec := ih (idx + 1) (stepFile cfg st f).1
    refine ⟨?_, by rw [hrec.2, hstep.2]⟩
    rw [hrec.1, hstep.1, scheduledCount_cons]
    omega

/-! Lemmas relating `preSweep` and `finishSync` to the loop. -/

theorem preSweep_skip_false (cfg : SyncConfig) (m0 : List (String × MetaEntry))
    (files : List FileInfo)
    (h : (preSweep cfg m0 files).1.shouldSkipCleanup = false) :
    cfg.cancelAt = none ∧
    (runLoop cfg files 0 (initState m0)).1.shouldSkipCleanup = false := by
  unfold preSweep at h
  dsimp only at h
  rw [doFlush_skip] at h
  cases hc : cfg.cancelAt with
  | some k => rw [hc] at h; simp at h
  | none =>
    refine ⟨rfl, ?_⟩
    rw [hc] at h
    simpa using h

theorem preSweep_counts (cfg : SyncConfig) (m0 : List (String × MetaEntry))
    (files : List FileInfo) (hins : cfg.insertFails = false)
    (hcan : cfg.cancelAt = none) :
    (preSweep cfg m0 files).1.processed = scheduledCount files ∧
    (preSweep cfg m0 files).1.flushError = false := by
  unfold preSweep
  dsimp only
  have hlp := runLoop_count cfg hins hcan files 0 (initState m0)
  rw [hcan]
  simp only [Option.isSome_none, Bool.false_eq_true, if_false]
  have h1 : (initState m0).processed = 0 := rfl
  have h2 : (initState m0).flushError = false := rfl
  rw [doFlush_processed, doFlush_flushError _ _ _ hins, hlp.1, hlp.2, h1, h2]
  exact ⟨Nat.zero_add _, rfl⟩

theorem finishSync_sweep_skip (cfg : SyncConfig) (sp : List String)
    (pre : SyncState × List Event) (s : List String)
    (h : (finishSync cfg sp pre).sweep = some s) :
    pre.1.shouldSkipCleanup = false := by
  unfold finishSync at h
  split at h
  · simp at h
  · split at h
    · rename_i hg
      rcases (Bool.and_eq_true _ _).mp hg with ⟨_, h2⟩
      simpa using h2
    · simp at h

theorem finishSync_result_processed (cfg : SyncConfig) (sp : List String)
    (pre : SyncState × List Event) (h : pre.1.flushError = false) :
    (finishSync cfg sp pre).result = some ⟨pre.1.processed, pre.1.indexed, 0⟩ := by
  unfold finishSync
  simp only [h, Bool.false_eq_true, if_false]
  split <;> rfl

theorem finishSync_result_some (cfg : SyncConfig) (sp : List String)
    (pre : SyncState × List Event) (h : pre.1.flushError = false) :
    ∃ r, (finishSync cfg sp pre).result = some r ∧ r.processed = pre.1.processed :=
  ⟨⟨pre.1.processed, pre.1.indexed, 0⟩, finishSync_result_processed cfg sp pre h, rfl⟩

/-- Claim C5: the stale sweep runs only in a pass with no per-file
processing error and no observed cancellation (a failing candidate or a
cancellation sets `shouldSkipCleanup`, which suppresses the sweep); and
per-file failures nevertheless increment `processed` and do not abort
the pass — with storage inserts healthy and no cancellation, the pass
returns a result whose `processed` counts every scheduled file, failing
ones included. -/
theorem stale_sweep_gating :
    (∀ (cfg : SyncConfig) (sp : List String) (m0 : List (String × MetaEntry))
        (fs : List FileInfo) (s : List String),
      (initialSync cfg sp m0 fs).sweep = some s →
      cfg.cancelAt = none ∧ ∀ f ∈ fs, candidateB f = true → f.fails = false) ∧
    (∀ (cfg : SyncConfig) (sp : List String) (m0 : List (String × MetaEntry))
        (fs : List FileInfo),
      cfg.insertFails = false → cfg.cancelAt = none →
      ∃ r, (initialSync cfg sp m0 fs).result = some r ∧
        r.processed = scheduledCount fs) := by
  constructor
  · intro cfg sp m0 fs s h
    rw [initialSync] at h
    have hskip := finishSync_sweep_skip cfg sp _ s h
    obtain ⟨hcan, hloop⟩ := preSweep_skip_false cfg m0 fs hskip
    refine ⟨hcan, ?_⟩
    intro f hf hcand
    cases hfl : f.fails
    · rfl
    · exact absurd hloop (by
        rw [runLoop_fails_skip cfg hcan fs 0 (initState m0) ⟨f, hf, hcand, hfl⟩]
        simp)
  · intro cfg sp m0 fs hins hcan
    rw [initialSync]
    obtain ⟨hp, hfe⟩ := preSweep_counts cfg m0 fs hins hcan
    obtain ⟨r, hr, hrp⟩ := finishSync_result_some cfg sp _ hfe
    exact ⟨r, hr, by rw [hrp, hp]⟩

/-! Dry-run: no storage mutation on any path. -/

theorem processOne_dry_events (cfg : SyncConfig) (st : SyncState) (f : FileInfo)
    (hdry : cfg.dryRun = true) :
    (processOne cfg st f).2.all (fun e => !isStoreWriteEv e) = true := by
  cases h1 : f.fails
  · cases h2 : f.sizeOk
    · simp [processOne_sizeSkip cfg st f h1 h2]
    · cases h3 : statHitB st.meta f
      · cases h4 : f.emptyOrNul
        · cases h5 : hashHitB st.meta f
          · simp [processOne_dryNew cfg st f h1 h2 h3 h4 h5 hdry]
          · simp [processOne_hashHit cfg st f h1 h2 h3 h4 h5, isStoreWriteEv]
        · simp [processOne_empty_dry cfg st f h1 h2 h3 h4 hdry]
      · simp [processOne_statHit cfg st f h1 h2 h3]
  · simp [processOne_fails cfg st f h1]

theorem stepFile_dry_events (cfg : SyncConfig) (st : SyncState) (f : FileInfo)
    (hdry : cfg.dryRun = true) :
    (stepFile cfg st f).2.all (fun e => !isStoreWriteEv e) = true := by
  unfold stepFile
  split
  · simp
  · split
    · simp
    · exact processOne_dry_events cfg st f hdry

theorem runLoop_dry_events (cfg : SyncConfig) (hdry : cfg.dryRun = true) :
    ∀ (files : List FileInfo) (idx : Nat) (st : SyncState),
      (runLoop cfg files idx st).2.all (fun e => !isStoreWriteEv e) = true := by
  intro files
  induction files with
  | nil => intro idx st; simp [runLoop_nil]
  | cons f rest ih =>
    intro idx st
    rw [runLoop_cons]
    split
    · simp
    · dsimp only
      rw [List.all_append]
      rw [stepFile_dry_events cfg st f hdry, ih (idx + 1) _]
      rfl

theorem finishSync_events_dry (cfg : SyncConfig) (sp : List String)
    (pre : SyncState × List Event) (hdry : cfg.dryRun = true) :
    (finishSync cfg sp pre).events = pre.2 := by
  unfold finishSync
  split
  · rfl
  · split
    · rename_i hg
      rw [hdry] at hg
      simp at hg
    · rfl

/-- Claim C10: with `dryRun` set, `initialSync` never mutates the vector
store — no `deletePaths`, `insertBatch` or `drop` call appears in the
trace (flushes return before writing and the stale sweep is disabled). -/
theorem dry_run_no_store_writes (cfg : SyncConfig) (sp : List String)
    (m0 : List (String × MetaEntry)) (fs : List FileInfo)
    (hdry : cfg.dryRun = true) :
    (initialSync cfg sp m0 fs).events.all (fun e => !isStoreWriteEv e) = true := by
  rw [initialSync, finishSync_events_dry cfg sp _ hdry]
  unfold preSweep
  dsimp only
  rw [List.all_append]
  rw [(doFlush_dry_evs cfg _ true hdry).1, runLoop_dry_events cfg hdry fs 0 (initState m0)]
  rfl

/-- Concrete dry-run configuration and file used by the witness below. -/
def c10Cfg : SyncConfig := ⟨true, 1, false, none⟩

def c10File : FileInfo := ⟨"b.ts", false, true, true, 1, 4, false, 9, [⟨"b.ts"⟩], false⟩

/-- Witness for claim C10 at a concrete dry run over one changed file
and one stored stale path. -/
theorem dry_run_no_store_writes_witness :
    (initialSync c10Cfg ["z.ts"] [] [c10File]).events.all (fun e => !isStoreWriteEv e) = true :=
  dry_run_no_store_writes c10Cfg ["z.ts"] [] [c10File] rfl

/-! Claim C3: the corruption check the spec describes is absent from
`initialSync`. -/

/-- Concrete run for claim C3: the store reports rows (including a path
the scan does not see) while the metadata cache is empty. -/
def c3Cfg : SyncConfig := ⟨false, 1, false, none⟩

def c3File : FileInfo := ⟨"a.ts", false, true, true, 1, 3, false, 5, [⟨"a.ts"⟩], false⟩

/-- Claim C3, evaluated at the failing input: with the vector store
reporting rows `["a.ts", "b.ts"]` and an empty metadata cache,
`initialSync` performs an ordinary incremental pass — it returns a
result and issues no `drop()` and no metadata-cache clear, contrary to
the claimed corruption detection (drop the vector table, clear the
metadata cache, restart the scan). -/
theorem inconsistent_state_not_reset :
    (initialSync c3Cfg ["a.ts", "b.ts"] [] [c3File]).events.all
        (fun e => !isResetEv e) = true ∧
    (initialSync c3Cfg ["a.ts", "b.ts"] [] [c3File]).result.isSome = true := by
  constructor
  · decide
  · decide

/-! Claim C2: an unchanged tree re-syncs without pool calls or store
writes. The induction below carries the loop invariant: hits keep the
accumulators empty and only refresh cache entries. -/

theorem statHitB_set_ne (m : List (String × MetaEntry)) (p : String) (e : MetaEntry)
    (g : FileInfo) (h : p ≠ g.relPath) : statHitB (metaSet m p e) g = statHitB m g := by
  unfold statHitB
  rw [metaGet_metaSet_ne m p g.relPath e h]

theorem hashHitB_set_ne (m : List (String × MetaEntry)) (p : String) (e : MetaEntry)
    (g : FileInfo) (h : p ≠ g.relPath) : hashHitB (metaSet m p e) g = hashHitB m g := by
  unfold hashHitB
  rw [metaGet_metaSet_ne m p g.relPath e h]

theorem runLoop_cached (cfg : SyncConfig) (hcan : cfg.cancelAt = none) :
    ∀ (files : List FileInfo) (idx : Nat) (st : SyncState),
      st.batch = [] → st.pendingDeletes = [] → st.pendingMeta = [] →
      (files.map FileInfo.relPath).Nodup →
      (∀ f ∈ files, candidateB f = true →
        f.fails = false ∧ f.sizeOk = true ∧
        (statHitB st.meta f = true ∨
          (hashHitB st.meta f = true ∧ f.emptyOrNul = false))) →
      ((runLoop cfg files idx st).1.batch = [] ∧
       (runLoop cfg files idx st).1.pendingDeletes = [] ∧
       (runLoop cfg files idx st).1.pendingMeta = [] ∧
       (runLoop cfg files idx st).1.flushError = st.flushError) ∧
      (runLoop cfg files idx st).2.all isMetaPutEv = true ∧
      (∀ p, p ∈ st.seen → p ∈ (runLoop cfg files idx st).1.seen) ∧
      (∀ f ∈ files, candidateB f = true →
        f.relPath ∈ (runLoop cfg files idx st).1.seen) := by
  intro files
  induction files with
  | nil =>
    intro idx st hb hd hm _ _
    rw [runLoop_nil]
    exact ⟨⟨hb, hd, hm, rfl⟩, rfl, fun p hp => hp, by simp⟩
  | cons f rest ih =>
    intro idx st hb hd hm hnd hhits
    rw [runLoop_cons]
    have hco : cancelObserved cfg idx = false := by simp [cancelObserved, hcan]
    rw [hco]
    simp only [Bool.false_eq_true, if_false]
    have hnd' : f.relPath ∉ rest.map FileInfo.relPath ∧
        (rest.map FileInfo.relPath).Nodup := by
      rw [List.map_cons, List.nodup_cons] at hnd
      exact hnd
    by_cases hcand : candidateB f = true
    · have hig : f.ignored = false := by
        rcases (Bool.and_eq_true _ _).mp hcand with ⟨ha, _⟩
        simpa using ha
      have hidx : f.indexable = true := ((Bool.and_eq_true _ _).mp hcand).2
      have hstep : stepFile cfg st f = processOne cfg st f := by
        simp [stepFile, hig, hidx]
      rcases hhits f (List.mem_cons_self f rest) hcand with ⟨hfail, hsize, hhit⟩
      cases h3 : statHitB st.meta f
      · rcases hhit with hstat | ⟨hhash, hemp⟩
        · rw [h3] at hstat; cases hstat
        · rw [hstep, processOne_hashHit cfg st f hfail hsize h3 hemp hhash]
          dsimp only
          have hrest : ∀ g ∈ rest, candidateB g = true →
              g.fails = false ∧ g.sizeOk = true ∧
              (statHitB (metaSet st.meta f.relPath ⟨f.hash, f.mtimeMs, f.size⟩) g = true ∨
                (hashHitB (metaSet st.meta f.relPath ⟨f.hash, f.mtimeMs, f.size⟩) g = true ∧
                  g.emptyOrNul = false)) := by
            intro g hg hgc
            have hne : f.relPath ≠ g.relPath := by
              intro hEq
              exact hnd'.1 (hEq ▸ List.mem_map_of_mem FileInfo.relPath hg)
            rcases hhits g (List.mem_cons_of_mem f hg) hgc with ⟨h1, h2, h3'⟩
            rw [statHitB_set_ne st.meta f.relPath _ g hne,
              hashHitB_set_ne st.meta f.relPath _ g hne]
            exact ⟨h1, h2, h3'⟩
          obtain ⟨hA, hB, hC, hD⟩ :=
            ih (idx + 1)
              { st with meta := metaSet st.meta f.relPath ⟨f.hash, f.mtimeMs, f.size⟩,
                        processed := st.processed + 1,
                        seen := pdAdd st.seen f.relPath }
              hb hd hm hnd'.2 hrest
          refine ⟨hA, ?_, ?_, ?_⟩
          · simp [List.all_append, hB, isMetaPutEv]
          · intro p hp
            exact hC p (mem_pdAdd_of st.seen f.relPath p hp)
          · intro g hg hgc
            rcases List.mem_cons.mp hg with rfl | hmem
            · exact hC g.relPath (mem_pdAdd_self st.seen g.relPath)
            · exact hD g hmem hgc
      · rw [hstep, processOne_statHit cfg st f hfail hsize h3]
        dsimp only
        have hrest : ∀ g ∈ rest, candidateB g = true →
            g.fails = false ∧ g.sizeOk = true ∧
            (statHitB st.meta g = true ∨
              (hashHitB st.meta g = true ∧ g.emptyOrNul = false)) := by
          intro g hg hgc
          exact hhits g (List.mem_cons_of_mem f hg) hgc
        obtain ⟨hA, hB, hC, hD⟩ :=
          ih (idx + 1)
            { st with processed := st.processed + 1, seen := pdAdd st.seen f.relPath }
            hb hd hm hnd'.2 hrest
        refine ⟨hA, by simpa using hB, ?_, ?_⟩
        · intro p hp
          exact hC p (mem_pdAdd_of st.seen f.relPath p hp)
        · intro g hg hgc
          rcases List.mem_cons.mp hg with rfl | hmem
          · exact hC g.relPath (mem_pdAdd_self st.seen g.relPath)
          · exact hD g hmem hgc
    · have hstep : stepFile cfg st f = (st, []) := by
        cases hig : f.ignored
        · cases hidx : f.indexable
          · simp [stepFile, hig, hidx]
          · exact absurd (by simp [candidateB, hig, hidx]) hcand
        · simp [stepFile, hig]
      rw [hstep]
      dsimp only
      obtain ⟨hA, hB, hC, hD⟩ :=
        ih (idx + 1) st hb hd hm hnd'.2
          (fun g hg hgc => hhits g (List.mem_cons_of_mem f hg) hgc)
      refine ⟨hA, by simpa using hB, hC, ?_⟩
      intro g hg hgc
      rcases List.mem_cons.mp hg with rfl | hmem
      · exact absurd hgc hcand
      · exact hD g hmem hgc

/-- Concrete inputs for the claim C2 counterexample: an empty file whose
cached hash still matches but whose `(mtime, size)` stat changed. -/
def c2Cfg : SyncConfig := ⟨false, 1, false, none⟩

def c2File : FileInfo := ⟨"a.ts", false, true, true, 2, 0, true, 7, [], false⟩

def c2Meta : List (String × MetaEntry) := [("a.ts", ⟨7, 1, 0⟩)]

/-- Claim C2, counterexample: for an empty (or NUL-containing) file whose
stat changed but whose content hash matches the cache, `initialSync`
does not merely refresh the cache entry — the empty/NUL check runs
before the hash check, so the file is re-scheduled for delete-by-path
and the store receives a `deletePaths` write. -/
theorem second_sync_counterexample :
    statHitB c2Meta c2File = false ∧ hashHitB c2Meta c2File = true ∧
    Event.deletePaths ["a.ts"] ∈ (initialSync c2Cfg [] c2Meta [c2File]).events := by
  refine ⟨by decide, by decide, by decide⟩

/-- Claim C2 (amended): re-running `initialSync` issues no pool call and
no vector-store write — every emitted call is a metadata-cache put —
provided no cancellation occurs, scanned paths are unique, every
candidate either hits the cache on `(mtimeMs, size)` or is non-empty,
NUL-free with a matching content hash, and every stored path is among
the candidates. (An empty/NUL file whose stat changed is excluded: it is
re-scheduled for delete-by-path, as the counterexample shows.) -/
theorem second_sync_no_writes (cfg : SyncConfig) (sp : List String)
    (m0 : List (String × MetaEntry)) (files : List FileInfo)
    (hcan : cfg.cancelAt = none)
    (hnd : (files.map FileInfo.relPath).Nodup)
    (hhits : ∀ f ∈ files, candidateB f = true →
      f.fails = false ∧ f.sizeOk = true ∧
      (statHitB m0 f = true ∨ (hashHitB m0 f = true ∧ f.emptyOrNul = false)))
    (hs : ∀ p ∈ sp, ∃ f ∈ files, f.relPath = p ∧ candidateB f = true) :
    (initialSync cfg sp m0 files).events.all isMetaPutEv = true ∧
    (initialSync cfg sp m0 files).events.all
      (fun e => !(isPoolCallEv e || isStoreWriteEv e)) = true := by
  obtain ⟨⟨hA1, hA2, hA3, hA4⟩, hB, hC, hD⟩ :=
    runLoop_cached cfg hcan files 0 (initState m0) rfl rfl rfl hnd hhits
  have hfo := doFlush_of_empty cfg (runLoop cfg files 0 (initState m0)).1 true hA1 hA3 hA2
  have hpre : preSweep cfg m0 files =
      ((runLoop cfg files 0 (initState m0)).1,
        (runLoop cfg files 0 (initState m0)).2 ++ []) := by
    unfold preSweep
    dsimp only
    rw [hcan]
    simp only [Option.isSome_none, Bool.false_eq_true, if_false]
    rw [hfo]
  have hfe : (runLoop cfg files 0 (initState m0)).1.flushError = false := hA4
  have hstale : staleOf sp (runLoop cfg files 0 (initState m0)).1 = [] := by
    unfold staleOf
    rw [List.filter_eq_nil_iff]
    intro p hp
    obtain ⟨f, hf, rfl, hcand⟩ := hs p hp
    have hmem := hD f hf hcand
    simp [List.elem_iff]
    exact hmem
  have hev : (initialSync cfg sp m0 files).events =
      (runLoop cfg files 0 (initState m0)).2 := by
    rw [initialSync, hpre]
    unfold finishSync
    dsimp only
    rw [hfe, hstale]
    simp
  constructor
  · rw [hev]; exact hB
  · rw [hev]
    rw [List.all_eq_true] at hB ⊢
    intro e he
    exact metaPut_harmless e (hB e he)

/-- Concrete inputs witnessing the amended claim C2: one stat-hit file
and one non-empty hash-hit file, with the stored path among them. -/
def c2wMeta : List (String × MetaEntry) := [("a.ts", ⟨7, 1, 3⟩), ("b.ts", ⟨9, 5, 4⟩)]

def c2wF1 : FileInfo := ⟨"a.ts", false, true, true, 1, 3, false, 7, [], false⟩

def c2wF2 : FileInfo := ⟨"b.ts", false, true, true, 6, 4, false, 9, [], false⟩

/-- Witness for the amended claim C2 at concrete inputs. -/
theorem second_sync_no_writes_witness :
    (initialSync c2Cfg ["a.ts"] c2wMeta [c2wF1, c2wF2]).events.all isMetaPutEv = true ∧
    (initialSync c2Cfg ["a.ts"] c2wMeta [c2wF1, c2wF2]).events.all
      (fun e => !(isPoolCallEv e || isStoreWriteEv e)) = true :=
  second_sync_no_writes c2Cfg ["a.ts"] c2wMeta [c2wF1, c2wF2] rfl
    (by decide) (by decide) (by decide)

/-! Claim C6: the empty/NUL-byte branch. -/

theorem doFlush_cases (cfg : SyncConfig) (st : SyncState) (force : Bool) :
    doFlush cfg st force = ⟨st, [], false⟩ ∨
    doFlush cfg st force =
      ⟨{ st with batch := [],
                 pendingMeta := [],
                 pendingDeletes := [],
                 meta := (flushBatch st.batch st.pendingMeta st.pendingDeletes
                     cfg.dryRun cfg.insertFails).committed.foldl
                   (fun m q => metaSet m q.1 q.2) st.meta,
                 flushError := st.flushError ||
                   !(flushBatch st.batch st.pendingMeta st.pendingDeletes
                       cfg.dryRun cfg.insertFails).ok },
       (flushBatch st.batch st.pendingMeta st.pendingDeletes cfg.dryRun cfg.insertFails).events,
       !(flushBatch st.batch st.pendingMeta st.pendingDeletes cfg.dryRun cfg.insertFails).ok⟩ := by
  simp only [doFlush]
  split
  · right; rfl
  · left; rfl

theorem all_map_metaPut_not_pool (pm : List (String × MetaEntry)) :
    (pm.map (fun q => Event.metaPut q.1 q.2)).all (fun e => !isPoolCallEv e) = true := by
  rw [List.all_eq_true]
  intro e he
  obtain ⟨q, _, rfl⟩ := List.mem_map.mp he
  rfl

theorem flushBatch_mem_delete (vs : List VectorRecord) (pm : List (String × MetaEntry))
    (pd : List String) (hpd : pd.isEmpty = false) :
    Event.deletePaths pd ∈ (flushBatch vs pm pd false false).events := by
  unfold flushBatch
  by_cases h3 : vs.isEmpty = true <;> simp [hpd, h3]

theorem flushBatch_mem_metaPut (vs : List VectorRecord) (pm : List (String × MetaEntry))
    (pd : List String) (p : String) (e : MetaEntry) (hq : (p, e) ∈ pm) :
    Event.metaPut p e ∈ (flushBatch vs pm pd false false).events := by
  unfold flushBatch
  simp only [Bool.false_eq_true, if_false]
  by_cases h3 : vs.isEmpty = true
  · rw [if_pos h3]
    exact List.mem_append.mpr (Or.inr (List.mem_map_of_mem _ hq))
  · rw [if_neg h3]
    exact List.mem_append.mpr (Or.inr (List.mem_map_of_mem _ hq))

theorem flushBatch_no_pool (vs : List VectorRecord) (pm : List (String × MetaEntry))
    (pd : List String) (dr fl : Bool) :
    (flushBatch vs pm pd dr fl).events.all (fun e => !isPoolCallEv e) = true := by
  unfold flushBatch
  by_cases h1 : dr = true
  · simp [h1]
  · by_cases h2 : pd.isEmpty = true <;> by_cases h3 : vs.isEmpty = true <;>
      by_cases h4 : fl = true <;>
      simp [h1, h2, h3, h4, isPoolCallEv, List.all_append] <;>
      intro x p e _ hx <;> cases hx <;> rfl

theorem pdAdd_isEmpty_false (l : List String) (p : String) :
    (pdAdd l p).isEmpty = false := by
  unfold pdAdd
  split
  · rename_i h
    have hm : p ∈ l := List.elem_iff.mp h
    cases l
    · cases hm
    · rfl
  · cases l <;> rfl

/-- Claim C6: a candidate file that is read (no stat cache hit) and found
empty or NUL-containing is, outside dry-run, scheduled for delete-by-path
(in `pendingDeletes` or already flushed in a `deletePaths` call), has its
metadata entry `(hash, mtimeMs, size)` recorded (pending or committed),
is counted processed and seen, and is never sent to the worker pool. -/
theorem empty_or_nul_branch (cfg : SyncConfig) (st : SyncState) (f : FileInfo)
    (hins : cfg.insertFails = false) (hdry : cfg.dryRun = false)
    (h1 : f.fails = false) (h2 : f.sizeOk = true)
    (h3 : statHitB st.meta f = false) (h4 : f.emptyOrNul = true) :
    (f.relPath ∈ (processOne cfg st f).1.pendingDeletes ∨
      ∃ ps, Event.deletePaths ps ∈ (processOne cfg st f).2 ∧ f.relPath ∈ ps) ∧
    (metaGet (processOne cfg st f).1.pendingMeta f.relPath =
        some ⟨f.hash, f.mtimeMs, f.size⟩ ∨
      Event.metaPut f.relPath ⟨f.hash, f.mtimeMs, f.size⟩ ∈ (processOne cfg st f).2) ∧
    (processOne cfg st f).1.processed = st.processed + 1 ∧
    f.relPath ∈ (processOne cfg st f).1.seen ∧
    (processOne cfg st f).2.all (fun e => !isPoolCallEv e) = true := by
  rw [processOne_empty cfg st f h1 h2 h3 h4 hdry]
  dsimp only
  rcases doFlush_cases cfg
      { st with pendingDeletes := pdAdd st.pendingDeletes f.relPath,
                pendingMeta := metaSet st.pendingMeta f.relPath ⟨f.hash, f.mtimeMs, f.size⟩ }
      false with hdf | hdf <;> rw [hdf] <;> try dsimp only
  · refine ⟨Or.inl (mem_pdAdd_self st.pendingDeletes f.relPath),
      Or.inl (metaGet_metaSet_self st.pendingMeta f.relPath _),
      rfl, mem_pdAdd_self st.seen f.relPath, rfl⟩
  · rw [hdry, hins]
    rw [flushBatch_ok_of_insert_ok]
    simp only [Bool.not_true, Bool.false_eq_true, if_false]
    refine ⟨?_, ?_, by trivial, mem_pdAdd_self st.seen f.relPath, ?_⟩
    · exact Or.inr ⟨pdAdd st.pendingDeletes f.relPath,
        flushBatch_mem_delete st.batch _ _ (pdAdd_isEmpty_false st.pendingDeletes f.relPath),
        mem_pdAdd_self st.pendingDeletes f.relPath⟩
    · exact Or.inr (flushBatch_mem_metaPut st.batch _ _ f.relPath _
        (mem_metaSet_self st.pendingMeta f.relPath _))
    · exact flushBatch_no_pool st.batch _ _ false false

/-- Concrete inputs for the claim C6 witness. -/
def c6Cfg : SyncConfig := ⟨false, 2, false, none⟩

def c6File : FileInfo := ⟨"e.ts", false, true, true, 3, 0, true, 11, [], false⟩

/-- Witness for claim C6 at a concrete empty file. -/
theorem empty_or_nul_branch_witness :
    (c6File.relPath ∈ (processOne c6Cfg (initState []) c6File).1.pendingDeletes ∨
      ∃ ps, Event.deletePaths ps ∈ (processOne c6Cfg (initState []) c6File).2 ∧
        c6File.relPath ∈ ps) ∧
    (metaGet (processOne c6Cfg (initState []) c6File).1.pendingMeta c6File.relPath =
        some ⟨c6File.hash, c6File.mtimeMs, c6File.size⟩ ∨
      Event.metaPut c6File.relPath ⟨c6File.hash, c6File.mtimeMs, c6File.size⟩ ∈
        (processOne c6Cfg (initState []) c6File).2) ∧
    (processOne c6Cfg (initState []) c6File).1.processed = (initState []).processed + 1 ∧
    c6File.relPath ∈ (processOne c6Cfg (initState []) c6File).1.seen ∧
    (processOne c6Cfg (initState []) c6File).2.all (fun e => !isPoolCallEv e) = true :=
  empty_or_nul_branch c6Cfg (initState []) c6File rfl rfl rfl rfl (by decide) rfl

/-! Witnesses for claims C1 and C5, applying the theorems' conditional
parts at concrete runs. -/

/-- Concrete run where the insert step throws: one changed file whose
vectors reach a flush. -/
def c1Cfg : SyncConfig := ⟨false, 1, true, none⟩

def c1File : FileInfo := ⟨"w.ts", false, true, true, 1, 5, false, 13, [⟨"w.ts"⟩], false⟩

/-- Witness for claim C1: at a run whose flush fails on insert, the
recorded flush error makes `initialSync` rethrow (result `none`). -/
theorem flush_order_and_insert_failure_witness :
    (initialSync c1Cfg [] [] [c1File]).result = none :=
  flush_order_and_insert_failure.2 c1Cfg [] [] [c1File] (by decide)

/-- Concrete run with one failing candidate. -/
def c5Cfg : SyncConfig := ⟨false, 1, false, none⟩

def c5File : FileInfo := ⟨"x.ts", false, true, true, 1, 2, false, 3, [], true⟩

/-- Witness for claim C5: a pass over one failing file still completes
and counts it in `processed`. -/
theorem stale_sweep_gating_witness :
    ∃ r, (initialSync c5Cfg ["x.ts"] [] [c5File]).result = some r ∧
      r.processed = scheduledCount [c5File] :=
  stale_sweep_gating.2 c5Cfg ["x.ts"] [] [c5File] rfl rfl

end Osgrep

namespace OsgrepEnv

/-- Model of JavaScript `parseInt(s, 10)` on environment-variable
strings: skip leading whitespace, read an optional sign and then the
longest digit prefix (ignoring any trailing garbage); `none` is `NaN`. -/
def jsParseInt (s : String) : Option Int :=
  let cs := s.toList.dropWhile (fun c => c == ' ' || c == '\t' || c == '\n' || c == '\r')
  let signedRest : Int × List Char :=
    match cs with
    | '-' :: rest => (-1, rest)
    | '+' :: rest => (1, rest)
    | _ => (1, cs)
  let digits := signedRest.2.takeWhile Char.isDigit
  if digits.isEmpty then none
  else some (signedRest.1 *
    ((digits.foldl (fun acc c => acc * 10 + (c.toNat - Char.toNat '0')) 0 : Nat) : Int))

/-- The environment as read by `getWorkerCount`:
`OSGREP_SINGLE_WORKER`, `NODE_ENV`, `OSGREP_WORKER_COUNT`. -/
structure EnvConfig where
  singleWorker : Option String
  nodeEnv : Option String
  workerCount : Option String
deriving DecidableEq, Repr

/-- JavaScript truthiness of an optional environment string: defined and
non-empty. -/
def jsTruthy : Option String → Bool
  | some s => !s.isEmpty
  | none => false

/-- Embedding of `getWorkerCount` (worker-manager.ts lines 49-70): 1 in
test or single-worker mode; else a truthy `OSGREP_WORKER_COUNT` that
parses to a positive count yields `min 4 count`; else 1. -/
def getWorkerCount (env : EnvConfig) : Int :=
  if env.singleWorker == some "1" || env.nodeEnv == some "test" then 1
  else if jsTruthy env.workerCount then
    match jsParseInt (env.workerCount.getD "") with
    | some n => if 0 < n then min 4 n else 1
    | none => 1
  else 1

/-- Embedding of `WORKER_TIMEOUT_MS` (config.ts lines 19-22):
`Number.parseInt(process.env.OSGREP_WORKER_TIMEOUT_MS || "60000", 10)`. -/
def workerTimeoutMs (env : Option String) : Option Int :=
  jsParseInt (match env with
    | some s => if s.isEmpty then "60000" else s
    | none => "60000")

/-- Claim C8: for every environment, `getWorkerCount` is between 1 and 4
inclusive; it is 1 in test / single-worker mode and when no valid
`OSGREP_WORKER_COUNT` override is set, and a positive override `n`
yields `min 4 n`. -/
theorem worker_count_bounds (env : EnvConfig) :
    1 ≤ getWorkerCount env ∧ getWorkerCount env ≤ 4 ∧
    ((env.singleWorker = some "1" ∨ env.nodeEnv = some "test") →
      getWorkerCount env = 1) ∧
    (∀ s n, env.workerCount = some s → s.isEmpty = false →
      jsParseInt s = some n → 0 < n →
      env.singleWorker ≠ some "1" → env.nodeEnv ≠ some "test" →
      getWorkerCount env = min 4 n) ∧
    (env.singleWorker ≠ some "1" → env.nodeEnv ≠ some "test" →
      jsTruthy env.workerCount = false →
      getWorkerCount env = 1) := by
  have hbound : 1 ≤ getWorkerCount env ∧ getWorkerCount env ≤ 4 := by
    unfold getWorkerCount
    split
    · exact ⟨le_refl 1, by norm_num⟩
    · split
      · rcases hp : jsParseInt (env.workerCount.getD "") with _ | n
        · exact ⟨le_refl 1, by norm_num⟩
        · dsimp only
          rcases lt_or_le 0 n with hn | hn
          · rw [if_pos hn]
            exact ⟨le_min (by norm_num) hn, min_le_left 4 n⟩
          · rw [if_neg (by omega)]
            exact ⟨le_refl 1, by norm_num⟩
      · exact ⟨le_refl 1, by norm_num⟩
  refine ⟨hbound.1, hbound.2, ?_, ?_, ?_⟩
  · intro h
    unfold getWorkerCount
    rw [if_pos]
    rcases h with h | h <;> simp [h]
  · intro s n hs hse hp hn h1 h2
    unfold getWorkerCount
    rw [if_neg (by simp [h1, h2])]
    rw [if_pos (by simp [jsTruthy, hs, hse])]
    rw [hs]
    simp only [Option.getD_some]
    rw [hp]
    simp [hn]
  · intro h1 h2 ht
    unfold getWorkerCount
    rw [if_neg (by simp [h1, h2])]
    rw [if_neg (by simp [ht])]

/-- Concrete environment for the claim C8 witness: override of 3 with
neither test nor single-worker mode. -/
def c8Env : EnvConfig := ⟨none, none, some "3"⟩

/-- Witness for claim C8: the override 3 yields `min 4 3`. -/
theorem worker_count_bounds_witness : getWorkerCount c8Env = min 4 3 :=
  (worker_count_bounds c8Env).2.2.2.1 "3" 3 rfl rfl (by decide) (by decide)
    (by decide) (by decide)

end OsgrepEnv

namespace OsgrepWM

/-- A pending request as the manager tracks it (`pendingRequests`):
the index of the worker that was sent the request. -/
structure Pending where
  workerIndex : Nat
deriving DecidableEq, Repr

/-- Why a caller's promise is rejected. -/
inductive Reason where
  | timeout
  | workerRestarting
deriving DecidableEq, Repr

/-- Observable actions of the worker manager. -/
inductive WMEvent where
  | reject (id : String) (r : Reason)
  | terminate (i : Nat)
  | spawn (i : Nat)
deriving DecidableEq, Repr

/-- State of the worker manager: the pending-request map and the set of
worker indices with a restart in flight (`restartInFlight`). -/
structure WMState where
  pending : List (String × Pending)
  restartInFlight : List Nat
deriving DecidableEq, Repr

/-- Embedding of the `setTimeout` callback in `sendToWorker`
(worker-manager.ts lines 219-227): if the request is still pending,
delete it and reject the caller with the timeout error. Nothing else
happens on this path. -/
def onTimeout (st : WMState) (id : String) : WMState × List WMEvent :=
  match st.pending.find? (fun q => q.1 == id) with
  | some _ =>
    ({ st with pending := st.pending.filter (fun q => q.1 != id) },
     [WMEvent.reject id Reason.timeout])
  | none => (st, [])

/-- Embedding of `rejectPendingForWorker` (lines 140-147). -/
def rejectPendingForWorker (st : WMState) (i : Nat) : WMState × List WMEvent :=
  ({ st with pending := st.pending.filter (fun q => q.2.workerIndex != i) },
   (st.pending.filter (fun q => q.2.workerIndex == i)).map
     (fun q => WMEvent.reject q.1 Reason.workerRestarting))

inductive RestartOutcome where
  | awaitedExisting
  | performed
deriving DecidableEq, Repr

structure RestartOut where
  st : WMState
  evs : List WMEvent
  outcome : RestartOutcome
deriving DecidableEq, Repr

/-- Embedding of `restartWorker` (worker-manager.ts lines 149-181): a
restart already in flight for the index absorbs the trigger — the caller
merely awaits the existing handle; otherwise the pending requests of
that worker are rejected, the worker is terminated, and a replacement is
spawned at the same index, the handle being registered for the
duration. -/
def restartWorker (st : WMState) (i : Nat) : RestartOut :=
  if st.restartInFlight.contains i then ⟨st, [], RestartOutcome.awaitedExisting⟩
  else
    let rj := rejectPendingForWorker st i
    ⟨rj.1, rj.2 ++ [WMEvent.terminate i, WMEvent.spawn i], RestartOutcome.performed⟩

/-- Concrete state with one pending request on worker 0 and no restart
in flight. -/
def c4State : WMState := ⟨[("r1", ⟨0⟩)], []⟩

/-- Claim C4, counterexample: when the task timeout fires for a pending
request, the caller is rejected with the plain timeout error — not a
WorkerRestart-style one — and the worker is neither terminated nor
respawned on this path. -/
theorem timeout_restart_counterexample :
    (onTimeout c4State "r1").2 = [WMEvent.reject "r1" Reason.timeout] ∧
    WMEvent.terminate 0 ∉ (onTimeout c4State "r1").2 ∧
    WMEvent.spawn 0 ∉ (onTimeout c4State "r1").2 ∧
    WMEvent.reject "r1" Reason.workerRestarting ∉ (onTimeout c4State "r1").2 := by
  refine ⟨by decide, by decide, by decide, by decide⟩

/-- Claim C4 (amended): a request that reaches the timeout while still
pending is removed from the pending map and its caller's promise is
rejected with the timeout error (`Worker request timed out after
WORKER_TIMEOUT_MS ms`, default 60000 per `workerTimeoutMs`); the timeout
path performs no termination and no respawn — worker restarts are
triggered only by worker `error` / non-zero `exit` events and the memory
cap. -/
theorem timeout_rejects_without_restart (st : WMState) (id : String)
    (h : (st.pending.find? (fun q => q.1 == id)).isSome = true) :
    onTimeout st id =
      ({ st with pending := st.pending.filter (fun q => q.1 != id) },
       [WMEvent.reject id Reason.timeout]) ∧
    OsgrepEnv.workerTimeoutMs none = some 60000 := by
  refine ⟨?_, by decide⟩
  unfold onTimeout
  cases hf : st.pending.find? (fun q => q.1 == id) with
  | some q => rfl
  | none => rw [hf] at h; cases h

/-- Witness for the amended claim C4 at the concrete state. -/
theorem timeout_rejects_without_restart_witness :
    onTimeout c4State "r1" =
      ({ c4State with pending := c4State.pending.filter (fun q => q.1 != "r1") },
       [WMEvent.reject "r1" Reason.timeout]) ∧
    OsgrepEnv.workerTimeoutMs none = some 60000 :=
  timeout_rejects_without_restart c4State "r1" (by decide)

/-- Claim C9: restart triggers are de-duplicated — when a restart for
worker `i` is already in flight, a further trigger for `i` terminates
nothing, rejects nothing, spawns nothing and changes no state: it only
awaits the existing handle, so at most one restart per index is in
progress. -/
theorem restart_dedup (st : WMState) (i : Nat)
    (h : st.restartInFlight.contains i = true) :
    restartWorker st i = ⟨st, [], RestartOutcome.awaitedExisting⟩ := by
  have hm : i ∈ st.restartInFlight := List.elem_iff.mp h
  simp [restartWorker, hm]

/-- Concrete state with a restart in flight for worker 0. -/
def c9State : WMState := ⟨[("r1", ⟨0⟩)], [0]⟩

/-- Witness for claim C9 at the concrete state. -/
theorem restart_dedup_witness :
    restartWorker c9State 0 = ⟨c9State, [], RestartOutcome.awaitedExisting⟩ :=
  restart_dedup c9State 0 (by decide)

end OsgrepWM

namespace OsgrepSched

/-- An observable step of the syncer's task scheduler: `schedule` is one
call of the `schedule` helper (syncer.ts lines 147-157) — it starts the
task, pushes it onto `activeTasks`, and, when the bound is reached,
awaits `Promise.race` until at least one task has settled and been
spliced out; `complete` is a task settling (and being spliced out)
between calls. -/
inductive SchedOp where
  | schedule
  | complete
deriving DecidableEq, Repr

/-- Number of in-flight tasks after one operation, starting from `n`
in-flight: scheduling starts one task and, if the count reaches the
bound `mc`, waits until one settles. -/
def schedStep (mc n : Nat) : SchedOp → Nat
  | SchedOp.schedule => if mc ≤ n + 1 then n else n + 1
  | SchedOp.complete => n - 1

/-- The peak in-flight count observed during each `schedule` call of a
run: the count right after the new task is pushed. -/
def schedPeaks (mc : Nat) : List SchedOp → Nat → List Nat
  | [], _ => []
  | SchedOp.schedule :: rest, n =>
    (n + 1) :: schedPeaks mc rest (schedStep mc n SchedOp.schedule)
  | SchedOp.complete :: rest, n => schedPeaks mc rest (schedStep mc n SchedOp.complete)

/-- `maxConcurrency = Math.max(1, CONFIG.WORKER_THREADS)` (syncer.ts
line 97). -/
def maxConcurrencyOf (wt : Nat) : Nat := max 1 wt

theorem schedPeaks_bounded (mc : Nat) :
    ∀ (ops : List SchedOp) (n : Nat), n + 1 ≤ mc →
      (schedPeaks mc ops n).all (fun pk => decide (pk ≤ mc)) = true := by
  intro ops
  induction ops with
  | nil => intro n _; rfl
  | cons op rest ih =>
    intro n h
    cases op
    · unfold schedPeaks
      rw [List.all_cons]
      have h1 : decide (n + 1 ≤ mc) = true := decide_eq_true h
      rw [h1]
      have h2 : schedStep mc n SchedOp.schedule + 1 ≤ mc := by
        unfold schedStep
        dsimp only
        split
        · exact h
        · omega
      rw [ih _ h2]
      rfl
    · unfold schedPeaks
      exact ih _ (by unfold schedStep; dsimp only; omega)

/-- Claim C7: with `maxConcurrency = max 1 WORKER_THREADS`, every peak
in-flight count over any interleaving of schedule calls and task
completions stays at or below `maxConcurrency`: a new task is admitted
only when fewer than the bound are active, the scheduler waiting for a
completion otherwise. -/
theorem concurrency_gate (wt : Nat) (ops : List SchedOp) :
    (schedPeaks (maxConcurrencyOf wt) ops 0).all
      (fun pk => decide (pk ≤ maxConcurrencyOf wt)) = true :=
  schedPeaks_bounded (maxConcurrencyOf wt) ops 0
    (by unfold maxConcurrencyOf; omega)

end OsgrepSched
